import Mathlib

/-!
Verification of the panel-placement planner of `bpy_gen_structure.py`.

The core function `assemble_level(plan, panel)` scans a 2-D occupancy grid
`plan` (indexed `plan[x][y]`, `x` a row index, `y` a column index) with
`x ∈ range(len(plan) - 1)` and `y ∈ range(len(plan[0]) - 1)` and, for each
of four edge rules whose predicate holds, duplicates the template `panel`
and applies a translation and (for two of the rules) a rotation by
-1.5708 radians about the vertical axis.  We embed the grid as
`List (List Int)`, a duplicated panel as a `Instr` record (translation,
rotation, template reference), and the scan as a pure function producing
the list of placement instructions in emission order.
-/

namespace BpyGenStructure

/-- Rotation applied to a duplicated panel: the source either applies no
rotation or rotates by -1.5708 radians (-90 degrees) about the Z axis. -/
inductive Rot where
  | r0 : Rot
  | rNeg90 : Rot
deriving DecidableEq, Repr

/-- One placement instruction: translation vector, rotation about the
vertical axis, and the reference to the panel template being duplicated. -/
structure Instr where
  tx : Int
  ty : Int
  tz : Int
  rot : Rot
  src : Nat
deriving DecidableEq, Repr

/-- Reading `plan[a][b]`, total with default 0 (the empty-cell value);
the planner only ever reads in-range cells, which `assembleLevelQ` below
makes precise. -/
def cell (plan : List (List Int)) (a b : Nat) : Int :=
  (plan.getD a []).getD b 0

/-- `plan[a][b] == 1 or plan[a][b] == -1`, the occupancy test the source
applies to the first cell of every rule's pair. -/
def occupied (v : Int) : Bool :=
  v == 1 || v == -1

/-- The instructions emitted by the four rules of the loop body at `(x, y)`:
top (only at `x == 0`), right, left, bottom, in source order. -/
def cellInstrs (plan : List (List Int)) (panel : Nat) (x y : Nat) : List Instr :=
  (if x == 0 && occupied (cell plan x y) && cell plan x (y + 1) == 1 then
      [⟨(x : Int), 2 * (y : Int), 0, Rot.r0, panel⟩] else []) ++
  (if occupied (cell plan x y) && cell plan (x + 1) y == 1 then
      [⟨2 * (x : Int) + 1, 2 * (y : Int) - 1, 0, Rot.rNeg90, panel⟩] else []) ++
  (if occupied (cell plan x (y + 1)) && cell plan (x + 1) (y + 1) == 1 then
      [⟨2 * (x : Int) + 1, 2 * (y : Int) + 1, 0, Rot.rNeg90, panel⟩] else []) ++
  (if occupied (cell plan (x + 1) y) && cell plan (x + 1) (y + 1) == 1 then
      [⟨2 * (x : Int) + 2, 2 * (y : Int), 0, Rot.r0, panel⟩] else [])

/-- `assemble_level(plan, panel)`: the double loop
`for x in range(len(plan) - 1): for y in range(len(plan[0]) - 1):`
emitting the instructions of the four rules in scan order. -/
def assemble_level (plan : List (List Int)) (panel : Nat) : List Instr :=
  (List.range (plan.length - 1)).flatMap fun x =>
    (List.range ((plan.getD 0 []).length - 1)).flatMap fun y =>
      cellInstrs plan panel x y

/-- The grid is rectangular: every row has the length of row 0. -/
def IsRect (plan : List (List Int)) : Prop :=
  ∀ row ∈ plan, row.length = (plan.getD 0 []).length

instance (plan : List (List Int)) : Decidable (IsRect plan) :=
  List.decidableBAll _ plan

/-- Bounds-checked read of `plan[a][b]`: `none` models Python's IndexError. -/
def cellQ (plan : List (List Int)) (a b : Nat) : Option Int :=
  plan[a]?.bind fun row => row[b]?

/-- Checked top rule, with Python's short-circuit evaluation of
`x == 0 and (plan[x][y] == 1 or plan[x][y] == -1) and plan[x][y+1] == 1`:
a cell is read only once the conjuncts before it are true. -/
def topQ (plan : List (List Int)) (panel x y : Nat) : Option (List Instr) :=
  if x == 0 then do
    let a ← cellQ plan x y
    if occupied a then do
      let b ← cellQ plan x (y + 1)
      pure (if b == 1 then [⟨(x : Int), 2 * (y : Int), 0, Rot.r0, panel⟩] else [])
    else pure []
  else pure []

/-- Checked right rule with short-circuit evaluation. -/
def rightQ (plan : List (List Int)) (panel x y : Nat) : Option (List Instr) := do
  let a ← cellQ plan x y
  if occupied a then do
    let b ← cellQ plan (x + 1) y
    pure (if b == 1 then [⟨2 * (x : Int) + 1, 2 * (y : Int) - 1, 0, Rot.rNeg90, panel⟩] else [])
  else pure []

/-- Checked left rule with short-circuit evaluation. -/
def leftQ (plan : List (List Int)) (panel x y : Nat) : Option (List Instr) := do
  let a ← cellQ plan x (y + 1)
  if occupied a then do
    let b ← cellQ plan (x + 1) (y + 1)
    pure (if b == 1 then [⟨2 * (x : Int) + 1, 2 * (y : Int) + 1, 0, Rot.rNeg90, panel⟩] else [])
  else pure []

/-- Checked bottom rule with short-circuit evaluation. -/
def bottomQ (plan : List (List Int)) (panel x y : Nat) : Option (List Instr) := do
  let a ← cellQ plan (x + 1) y
  if occupied a then do
    let b ← cellQ plan (x + 1) (y + 1)
    pure (if b == 1 then [⟨2 * (x : Int) + 2, 2 * (y : Int), 0, Rot.r0, panel⟩] else [])
  else pure []

/-- Checked loop body at `(x, y)`: the four rules in source order. -/
def cellInstrsQ (plan : List (List Int)) (panel x y : Nat) : Option (List Instr) := do
  let t ← topQ plan panel x y
  let r ← rightQ plan panel x y
  let l ← leftQ plan panel x y
  let b ← bottomQ plan panel x y
  pure (t ++ r ++ l ++ b)

/-- Bounds-checked `assemble_level`: every grid read is checked, `len(plan[0])`
is evaluated on each outer iteration (as in Python), and `none` models an
uncaught IndexError.  The source performs no grid validation of its own. -/
def assembleLevelQ (plan : List (List Int)) (panel : Nat) : Option (List Instr) :=
  (List.range (plan.length - 1)).foldlM (fun acc x => do
    let row0 ← plan[0]?
    (List.range (row0.length - 1)).foldlM (fun acc2 y => do
      let l ← cellInstrsQ plan panel x y
      pure (acc2 ++ l)) acc) []

/-- `assemble_level` as it actually runs: duplicates accumulate onto the
scene's prior object list `acc`; the loop appends each fired rule's
instruction to the accumulated sequence. -/
def assembleLevelAcc (plan : List (List Int)) (panel : Nat) (acc : List Instr) : List Instr :=
  (List.range (plan.length - 1)).foldl (fun a x =>
    (List.range ((plan.getD 0 []).length - 1)).foldl (fun a2 y =>
      a2 ++ cellInstrs plan panel x y) a) acc

/-- The mutable state visible to `assemble_level`: the occupancy grid and the
sequence of emitted placement instructions (the scene's duplicated panels). -/
structure SceneState where
  plan : List (List Int)
  out : List Instr
deriving Repr

/-- One loop-body execution at `(x, y)`: reads the grid of the current state
and appends the fired rules' instructions; the grid is only read. -/
def stepCell (panel x y : Nat) (s : SceneState) : SceneState :=
  { s with out := s.out ++ cellInstrs s.plan panel x y }

/-- `assemble_level` as a transformer of the scene state: the double loop
threads the state through `stepCell`. -/
def assembleLevelS (panel : Nat) (s : SceneState) : SceneState :=
  (List.range (s.plan.length - 1)).foldl (fun t x =>
    (List.range ((t.plan.getD 0 []).length - 1)).foldl (fun u y =>
      stepCell panel x y u) t) s

/-- Replace every cell holding `-1` by `1`, leaving other cells unchanged. -/
def replaceNegOne (plan : List (List Int)) : List (List Int) :=
  plan.map fun row => row.map fun v => if v = -1 then 1 else v

/-- The wall-presence predicate on the horizontal pair `((r, y), (r, y+1))`:
first cell occupied, second cell `1`; as a 0/1 indicator. -/
def hInd (plan : List (List Int)) (r y : Nat) : Nat :=
  if occupied (cell plan r y) && cell plan r (y + 1) == 1 then 1 else 0

/-- The wall-presence predicate on the vertical pair `((x, c), (x+1, c))`:
first cell occupied, second cell `1`; as a 0/1 indicator. -/
def vInd (plan : List (List Int)) (x c : Nat) : Nat :=
  if occupied (cell plan x c) && cell plan (x + 1) c == 1 then 1 else 0

/-- Modelled from the spec: the number of horizontal adjacent-cell pairs
`((r, y), (r, y+1))` of the grid satisfying the wall-presence predicate —
the pairs the top rule (row 0) and bottom rule (rows 1 and beyond) examine,
each counted once. -/
def specHorizCount (plan : List (List Int)) : Nat :=
  ∑ r in Finset.range plan.length,
    ∑ y in Finset.range ((plan.getD 0 []).length - 1), hInd plan r y

/-- Modelled from the spec: the number of vertical adjacent-cell pairs
`((x, c), (x+1, c))` of the grid satisfying the wall-presence predicate,
each counted once. -/
def specVertCount (plan : List (List Int)) : Nat :=
  ∑ x in Finset.range (plan.length - 1),
    ∑ c in Finset.range (plan.getD 0 []).length, vInd plan x c

/-- Modelled from the spec: the number of adjacent-cell pairs (von Neumann
neighbors, the synthetic top-boundary pairs at row 0 included) whose first
cell is occupied and whose second cell is `1`, each distinct pair counted
exactly once. -/
def specPairCount (plan : List (List Int)) : Nat :=
  specHorizCount plan + specVertCount plan

/-- The satisfying vertical pairs in interior columns `1 .. H-2`: these are
examined twice, once by the right rule and once by the left rule. -/
def doubledVertCount (plan : List (List Int)) : Nat :=
  ∑ x in Finset.range (plan.length - 1),
    ∑ j in Finset.range ((plan.getD 0 []).length - 2), vInd plan x (j + 1)

/-! ### Helper lemmas -/

lemma foldl_append_eq (l : List Nat) (f : Nat → List Instr) (init : List Instr) :
    l.foldl (fun a x => a ++ f x) init = init ++ l.flatMap f := by
  induction l generalizing init with
  | nil => simp
  | cons x xs ih => simp [List.foldl_cons, List.flatMap_cons, ih, List.append_assoc]

lemma plan_stepCell (panel x y : Nat) (s : SceneState) :
    (stepCell panel x y s).plan = s.plan := rfl

lemma plan_inner_foldl (panel x : Nat) (M : List Nat) (u : SceneState) :
    (M.foldl (fun u y => stepCell panel x y u) u).plan = u.plan := by
  induction M generalizing u with
  | nil => rfl
  | cons y ys ih => rw [List.foldl_cons, ih, plan_stepCell]

lemma plan_outer_foldl (panel : Nat) (L : List Nat) (s : SceneState) :
    (L.foldl (fun t x =>
      (List.range ((t.plan.getD 0 []).length - 1)).foldl
        (fun u y => stepCell panel x y u) t) s).plan = s.plan := by
  induction L generalizing s with
  | nil => rfl
  | cons x xs ih => rw [List.foldl_cons, ih, plan_inner_foldl]

lemma foldlM_some (l : List Nat) (F : List Instr → Nat → Option (List Instr))
    (g : Nat → List Instr) (h : ∀ acc x, x ∈ l → F acc x = some (acc ++ g x))
    (init : List Instr) :
    l.foldlM F init = some (init ++ l.flatMap g) := by
  induction l generalizing init with
  | nil => simp
  | cons x xs ih =>
      rw [List.foldlM_cons, h init x (List.mem_cons_self x xs)]
      simp only [Option.bind_eq_bind, Option.some_bind]
      rw [ih (fun acc z hz => h acc z (List.mem_cons_of_mem x hz))]
      simp [List.flatMap_cons, List.append_assoc]

/-! ### Claims -/

/-- C7: the planner is deterministic and stateless: the instructions it
emits beyond any prior scene content `acc` are a pure function of the grid
and the template alone, so two calls on the same grid and template emit
identical instruction sequences. -/
theorem planner_deterministic_stateless (plan : List (List Int)) (panel : Nat)
    (acc : List Instr) :
    assembleLevelAcc plan panel acc = acc ++ assemble_level plan panel := by
  have h2 : (fun (a : List Instr) (x : Nat) =>
      (List.range ((plan.getD 0 []).length - 1)).foldl
        (fun a2 y => a2 ++ cellInstrs plan panel x y) a) =
      fun (a : List Instr) (x : Nat) =>
        a ++ (List.range ((plan.getD 0 []).length - 1)).flatMap
          (cellInstrs plan panel x) :=
    funext fun a => funext fun x => foldl_append_eq _ _ _
  rw [assembleLevelAcc, assemble_level, h2, foldl_append_eq]

/-- C9: on the 2×2 grid of all `1`s the planner evaluates the rules only at
`(0, 0)` and emits exactly one instruction per rule — top, right, left,
bottom — four in total. -/
theorem assemble_level_2x2_all_ones :
    assemble_level [[1, 1], [1, 1]] 0 =
      [⟨0, 0, 0, Rot.r0, 0⟩, ⟨1, -1, 0, Rot.rNeg90, 0⟩,
       ⟨1, 1, 0, Rot.rNeg90, 0⟩, ⟨2, 0, 0, Rot.r0, 0⟩] ∧
    (assemble_level [[1, 1], [1, 1]] 0).length = 4 := by decide

/-- C10: the planner never mutates the occupancy grid: running the scan on
any scene state leaves the grid component of the state unchanged. -/
theorem assembleLevelS_preserves_plan (panel : Nat) (s : SceneState) :
    (assembleLevelS panel s).plan = s.plan := by
  rw [assembleLevelS, plan_outer_foldl]

/-- C3 counterexample: on the 1×2 grid `[[1, 1]]` — smaller than 2×2 — the
planner raises nothing and silently yields the empty instruction sequence,
contradicting the claim that it rejects such input with `InvalidGridError`. -/
theorem planner_silent_on_1x2 :
    assembleLevelQ [[1, 1]] 7 = some [] ∧ assemble_level [[1, 1]] 7 = [] := by
  decide

/-- C3 amended: the planner performs no grid validation and raises no error
on degenerate grids: on any grid with fewer than 2 rows or fewer than 2
columns the loop bounds are empty (or the inner loop never runs) and the
planner silently produces the empty instruction sequence. -/
theorem planner_no_error_and_empty_on_degenerate (plan : List (List Int))
    (panel : Nat)
    (h : plan.length ≤ 1 ∨ (plan.getD 0 []).length ≤ 1) :
    assembleLevelQ plan panel = some [] := by
  by_cases hW : plan.length ≤ 1
  · have h0 : plan.length - 1 = 0 := by omega
    rw [assembleLevelQ, h0]
    rfl
  · have hH : (plan.getD 0 []).length ≤ 1 := h.resolve_left hW
    have hpos : 0 < plan.length := by omega
    have h0 : plan[0]? = some plan[0] := List.getElem?_eq_getElem hpos
    have hg : plan.getD 0 [] = plan[0] := List.getD_eq_getElem plan [] hpos
    have hlen : plan[0].length - 1 = 0 := by
      rw [← hg]; omega
    rw [assembleLevelQ]
    rw [foldlM_some _ _ (fun _ => []) ?_ []]
    · simp
    · intro acc x _
      rw [h0]
      simp only [Option.bind_eq_bind, Option.some_bind]
      rw [hlen]
      simp

/-- C3 amended witness: the 2×1 grid is accepted silently with no output. -/
theorem planner_no_error_on_2x1 :
    assembleLevelQ [[0], [0]] 3 = some [] :=
  planner_no_error_and_empty_on_degenerate [[0], [0]] 3 (Or.inr (by decide))

lemma mem_assemble_level_of_mem_cell {plan : List (List Int)} {panel x y : Nat}
    (hx : x < plan.length - 1) (hy : y < (plan.getD 0 []).length - 1)
    {t : Instr} (ht : t ∈ cellInstrs plan panel x y) :
    t ∈ assemble_level plan panel := by
  rw [assemble_level]
  exact List.mem_flatMap.mpr ⟨x, List.mem_range.mpr hx,
    List.mem_flatMap.mpr ⟨y, List.mem_range.mpr hy, ht⟩⟩

/-- C2: each rule that fires at a scanned `(x, y)` places exactly the
translation and rotation of the table: top (only at `x = 0`) at
`(x, 2y, 0)` unrotated, right at `(2x+1, 2y-1, 0)` rotated -90°, left at
`(2x+1, 2y+1, 0)` rotated -90°, bottom at `(2x+2, 2y, 0)` unrotated. -/
theorem assemble_level_rule_placements (plan : List (List Int)) (panel x y : Nat)
    (hx : x < plan.length - 1) (hy : y < (plan.getD 0 []).length - 1) :
    (x = 0 → occupied (cell plan x y) = true → cell plan x (y + 1) = 1 →
      (⟨(x : Int), 2 * (y : Int), 0, Rot.r0, panel⟩ : Instr) ∈
        assemble_level plan panel) ∧
    (occupied (cell plan x y) = true → cell plan (x + 1) y = 1 →
      (⟨2 * (x : Int) + 1, 2 * (y : Int) - 1, 0, Rot.rNeg90, panel⟩ : Instr) ∈
        assemble_level plan panel) ∧
    (occupied (cell plan x (y + 1)) = true → cell plan (x + 1) (y + 1) = 1 →
      (⟨2 * (x : Int) + 1, 2 * (y : Int) + 1, 0, Rot.rNeg90, panel⟩ : Instr) ∈
        assemble_level plan panel) ∧
    (occupied (cell plan (x + 1) y) = true → cell plan (x + 1) (y + 1) = 1 →
      (⟨2 * (x : Int) + 2, 2 * (y : Int), 0, Rot.r0, panel⟩ : Instr) ∈
        assemble_level plan panel) := by
  refine ⟨?_, ?_, ?_, ?_⟩
  · intro h0 hocc h1
    apply mem_assemble_level_of_mem_cell hx hy
    subst h0
    simp [cellInstrs, hocc, h1]
  · intro hocc h1
    apply mem_assemble_level_of_mem_cell hx hy
    simp [cellInstrs, hocc, h1]
  · intro hocc h1
    apply mem_assemble_level_of_mem_cell hx hy
    simp [cellInstrs, hocc, h1]
  · intro hocc h1
    apply mem_assemble_level_of_mem_cell hx hy
    simp [cellInstrs, hocc, h1]

/-- C2 witness: the right rule at `(1, 2)` on a 3×4 grid yields translation
`(3, 3, 0)` with rotation -90°, as the spec's example states. -/
theorem right_rule_at_1_2_witness :
    (⟨3, 3, 0, Rot.rNeg90, 9⟩ : Instr) ∈
      assemble_level [[0, 0, 0, 0], [0, 0, 1, 0], [0, 0, 1, 0]] 9 := by
  have h := (assemble_level_rule_placements
    [[0, 0, 0, 0], [0, 0, 1, 0], [0, 0, 1, 0]] 9 1 2
    (by decide) (by decide)).2.1 (by decide) (by decide)
  exact h

lemma getD_of_ge {α : Type} (l : List α) (n : Nat) (d : α) (h : l.length ≤ n) :
    l.getD n d = d := by
  rw [List.getD_eq_getElem?_getD, List.getElem?_eq_none h]
  rfl

lemma cell_mem_or_zero (plan : List (List Int)) (a b : Nat) :
    cell plan a b = 0 ∨ ∃ row ∈ plan, cell plan a b ∈ row := by
  rw [cell]
  rcases Nat.lt_or_ge a plan.length with ha | ha
  · rw [List.getD_eq_getElem plan [] ha]
    rcases Nat.lt_or_ge b plan[a].length with hb | hb
    · exact Or.inr ⟨plan[a], List.getElem_mem ha,
        by rw [List.getD_eq_getElem _ 0 hb]; exact List.getElem_mem hb⟩
    · rw [getD_of_ge _ _ _ hb]
      exact Or.inl rfl
  · rw [getD_of_ge plan a [] ha]
    exact Or.inl (getD_of_ge _ _ _ (Nat.zero_le b))

lemma occupied_cell_false (plan : List (List Int))
    (h : ∀ row ∈ plan, ∀ v ∈ row, v ≠ 1 ∧ v ≠ -1) (a b : Nat) :
    occupied (cell plan a b) = false := by
  rcases cell_mem_or_zero plan a b with h0 | ⟨row, hrow, hmem⟩
  · rw [h0]; decide
  · have hv := h row hrow _ hmem
    simp only [occupied, Bool.or_eq_false_iff, beq_eq_false_iff_ne]
    exact hv

lemma flatMap_nil_fun (l : List Nat) (f : Nat → List Instr)
    (h : ∀ x ∈ l, f x = []) : l.flatMap f = [] := by
  induction l with
  | nil => simp
  | cons x xs ih =>
      rw [List.flatMap_cons, h x (List.mem_cons_self x xs),
        ih fun z hz => h z (List.mem_cons_of_mem x hz)]
      rfl

/-- C8: on a rectangular grid with no occupied cell (no `1` and no `-1`),
the planner emits zero placement instructions. -/
theorem assemble_level_empty_of_no_occupied (plan : List (List Int)) (panel : Nat)
    (_hR : IsRect plan) (_hW : 2 ≤ plan.length)
    (_hH : 2 ≤ (plan.getD 0 []).length)
    (hempty : ∀ row ∈ plan, ∀ v ∈ row, v ≠ 1 ∧ v ≠ -1) :
    assemble_level plan panel = [] := by
  have hocc := occupied_cell_false plan hempty
  rw [assemble_level]
  refine flatMap_nil_fun _ _ fun x _ => flatMap_nil_fun _ _ fun y _ => ?_
  simp [cellInstrs, hocc]

/-- C8 witness: the all-zero 2×2 grid yields no instructions. -/
theorem assemble_level_empty_on_2x2_zeros :
    assemble_level [[0, 0], [0, 0]] 5 = [] :=
  assemble_level_empty_of_no_occupied [[0, 0], [0, 0]] 5
    (by decide) (by decide) (by decide) (by decide)

lemma row_getD_map (row : List Int) (b : Nat) :
    (row.map fun v => if v = -1 then 1 else v).getD b 0 =
      if row.getD b 0 = -1 then 1 else row.getD b 0 := by
  rcases Nat.lt_or_ge b row.length with hb | hb
  · rw [List.getD_eq_getElem _ 0 (by simpa using hb), List.getElem_map,
      List.getD_eq_getElem row 0 hb]
  · rw [getD_of_ge _ _ _ (by simpa using hb), getD_of_ge _ _ _ hb]
    norm_num


lemma cell_replaceNegOne (plan : List (List Int)) (a b : Nat) :
    cell (replaceNegOne plan) a b =
      if cell plan a b = -1 then 1 else cell plan a b := by
  rw [cell, cell, replaceNegOne]
  have hrow : (plan.map fun row => row.map fun v => if v = -1 then 1 else v).getD a [] =
      (plan.getD a []).map fun v => if v = -1 then 1 else v := by
    rcases Nat.lt_or_ge a plan.length with ha | ha
    · rw [List.getD_eq_getElem _ [] (by simpa using ha), List.getElem_map,
        List.getD_eq_getElem plan [] ha]
    · rw [getD_of_ge _ _ _ (by simpa using ha), getD_of_ge plan a [] ha]
      rfl
  rw [hrow, row_getD_map]

lemma occupied_replace (v : Int) :
    occupied (if v = -1 then 1 else v) = occupied v := by
  by_cases h : v = -1
  · subst h; decide
  · simp [h]

lemma ite_singleton_sublist (a : Instr) (b b' : Bool) (h : b = true → b' = true) :
    List.Sublist (if b then [a] else []) (if b' then [a] else []) := by
  cases b
  · simp [List.nil_sublist]
  · rw [h rfl]

lemma pred_mono (plan : List (List Int)) (p q r s : Nat) :
    (occupied (cell plan p q) && (cell plan r s == 1)) = true →
    (occupied (cell (replaceNegOne plan) p q) &&
      (cell (replaceNegOne plan) r s == 1)) = true := by
  intro h
  simp only [Bool.and_eq_true, beq_iff_eq] at h ⊢
  refine ⟨?_, ?_⟩
  · rw [cell_replaceNegOne, occupied_replace]
    exact h.1
  · rw [cell_replaceNegOne, h.2]
    norm_num

lemma cellInstrs_sublist_replace (plan : List (List Int)) (panel x y : Nat) :
    List.Sublist (cellInstrs plan panel x y)
      (cellInstrs (replaceNegOne plan) panel x y) := by
  rw [cellInstrs, cellInstrs]
  refine List.Sublist.append
    (List.Sublist.append
      (List.Sublist.append (ite_singleton_sublist _ _ _ ?_)
        (ite_singleton_sublist _ _ _ ?_))
      (ite_singleton_sublist _ _ _ ?_))
    (ite_singleton_sublist _ _ _ ?_)
  · intro h
    simp only [Bool.and_eq_true, beq_iff_eq] at h ⊢
    obtain ⟨⟨hx0, hocc⟩, h1⟩ := h
    refine ⟨⟨hx0, ?_⟩, ?_⟩
    · rw [cell_replaceNegOne, occupied_replace]
      exact hocc
    · rw [cell_replaceNegOne, h1]
      norm_num
  · exact pred_mono plan x y (x + 1) y
  · exact pred_mono plan x (y + 1) (x + 1) (y + 1)
  · exact pred_mono plan (x + 1) y (x + 1) (y + 1)

lemma flatMap_sublist (l : List Nat) (f g : Nat → List Instr)
    (h : ∀ x ∈ l, List.Sublist (f x) (g x)) :
    List.Sublist (l.flatMap f) (l.flatMap g) := by
  induction l with
  | nil => simp
  | cons x xs ih =>
      rw [List.flatMap_cons, List.flatMap_cons]
      exact List.Sublist.append (h x (List.mem_cons_self x xs))
        (ih fun z hz => h z (List.mem_cons_of_mem x hz))

lemma getD0_replaceNegOne (plan : List (List Int)) :
    (replaceNegOne plan).getD 0 [] =
      (plan.getD 0 []).map fun v => if v = -1 then 1 else v := by
  cases plan <;> rfl

lemma cellQ_eq (plan : List (List Int)) (hR : IsRect plan) {a b : Nat}
    (ha : a < plan.length) (hb : b < (plan.getD 0 []).length) :
    cellQ plan a b = some (cell plan a b) := by
  have hlen : plan[a].length = (plan.getD 0 []).length :=
    hR plan[a] (List.getElem_mem ha)
  have hb' : b < plan[a].length := by rw [hlen]; exact hb
  rw [cellQ, List.getElem?_eq_getElem ha]
  simp only [Option.bind_eq_bind, Option.some_bind]
  rw [List.getElem?_eq_getElem hb', cell, List.getD_eq_getElem plan [] ha,
    List.getD_eq_getElem _ 0 hb']

lemma topQ_eq (plan : List (List Int)) (panel x y : Nat) (hR : IsRect plan)
    (hx : x < plan.length - 1) (hy : y < (plan.getD 0 []).length - 1) :
    topQ plan panel x y =
      some (if x == 0 && occupied (cell plan x y) && cell plan x (y + 1) == 1
        then [⟨(x : Int), 2 * (y : Int), 0, Rot.r0, panel⟩] else []) := by
  rw [topQ]
  cases hxx : (x == 0 : Bool)
  · simp [hxx]
  · rw [cellQ_eq plan hR (by omega) (by omega)]
    simp only [Option.bind_eq_bind, Option.some_bind, if_true]
    cases hocc : occupied (cell plan x y)
    · simp [hxx, hocc]
    · rw [cellQ_eq plan hR (by omega) (by omega)]
      simp [hxx, hocc]

lemma rightQ_eq (plan : List (List Int)) (panel x y : Nat) (hR : IsRect plan)
    (hx : x < plan.length - 1) (hy : y < (plan.getD 0 []).length - 1) :
    rightQ plan panel x y =
      some (if occupied (cell plan x y) && cell plan (x + 1) y == 1
        then [⟨2 * (x : Int) + 1, 2 * (y : Int) - 1, 0, Rot.rNeg90, panel⟩]
        else []) := by
  rw [rightQ, cellQ_eq plan hR (by omega) (by omega)]
  simp only [Option.bind_eq_bind, Option.some_bind]
  cases hocc : occupied (cell plan x y)
  · simp [hocc]
  · rw [cellQ_eq plan hR (by omega) (by omega)]
    simp [hocc]

lemma leftQ_eq (plan : List (List Int)) (panel x y : Nat) (hR : IsRect plan)
    (hx : x < plan.length - 1) (hy : y < (plan.getD 0 []).length - 1) :
    leftQ plan panel x y =
      some (if occupied (cell plan x (y + 1)) && cell plan (x + 1) (y + 1) == 1
        then [⟨2 * (x : Int) + 1, 2 * (y : Int) + 1, 0, Rot.rNeg90, panel⟩]
        else []) := by
  rw [leftQ, cellQ_eq plan hR (by omega) (by omega)]
  simp only [Option.bind_eq_bind, Option.some_bind]
  cases hocc : occupied (cell plan x (y + 1))
  · simp [hocc]
  · rw [cellQ_eq plan hR (by omega) (by omega)]
    simp [hocc]

lemma bottomQ_eq (plan : List (List Int)) (panel x y : Nat) (hR : IsRect plan)
    (hx : x < plan.length - 1) (hy : y < (plan.getD 0 []).length - 1) :
    bottomQ plan panel x y =
      some (if occupied (cell plan (x + 1) y) && cell plan (x + 1) (y + 1) == 1
        then [⟨2 * (x : Int) + 2, 2 * (y : Int), 0, Rot.r0, panel⟩] else []) := by
  rw [bottomQ, cellQ_eq plan hR (by omega) (by omega)]
  simp only [Option.bind_eq_bind, Option.some_bind]
  cases hocc : occupied (cell plan (x + 1) y)
  · simp [hocc]
  · rw [cellQ_eq plan hR (by omega) (by omega)]
    simp [hocc]

lemma cellInstrsQ_eq (plan : List (List Int)) (panel x y : Nat) (hR : IsRect plan)
    (hx : x < plan.length - 1) (hy : y < (plan.getD 0 []).length - 1) :
    cellInstrsQ plan panel x y = some (cellInstrs plan panel x y) := by
  rw [cellInstrsQ, topQ_eq plan panel x y hR hx hy, rightQ_eq plan panel x y hR hx hy,
    leftQ_eq plan panel x y hR hx hy, bottomQ_eq plan panel x y hR hx hy]
  simp [cellInstrs]

/-- C5: on a well-formed rectangular grid the planner cannot fail: every
grid read is in bounds, the checked run reaches no error, and it produces
exactly the instruction sequence of the total embedding. -/
theorem assembleLevelQ_eq_some_on_rect (plan : List (List Int)) (panel : Nat)
    (hR : IsRect plan) (hW : 2 ≤ plan.length)
    (_hH : 2 ≤ (plan.getD 0 []).length) :
    assembleLevelQ plan panel = some (assemble_level plan panel) := by
  rw [assembleLevelQ, assemble_level]
  have h0 : plan[0]? = some plan[0] := List.getElem?_eq_getElem (by omega)
  have hg : plan.getD 0 [] = plan[0] := List.getD_eq_getElem plan [] (by omega)
  rw [foldlM_some _ _
    (fun x => (List.range ((plan.getD 0 []).length - 1)).flatMap
      (cellInstrs plan panel x)) ?_ []]
  · simp
  · intro acc x hx
    rw [h0]
    simp only [Option.bind_eq_bind, Option.some_bind]
    rw [show plan[0].length = (plan.getD 0 []).length from by rw [hg]]
    rw [foldlM_some _ _ (cellInstrs plan panel x) ?_ acc]
    intro acc2 y hy
    rw [cellInstrsQ_eq plan panel x y hR (List.mem_range.mp hx)
      (List.mem_range.mp hy)]
    simp

/-- C5 witness: the checked run on the all-ones 2×2 grid succeeds and agrees
with the total embedding. -/
theorem assembleLevelQ_eq_some_on_2x2 :
    assembleLevelQ [[1, 1], [1, 1]] 3 =
      some (assemble_level [[1, 1], [1, 1]] 3) :=
  assembleLevelQ_eq_some_on_rect [[1, 1], [1, 1]] 3
    (by decide) (by decide) (by decide)

/-- C4 counterexample: on `[[1, 0], [-1, 0]]` the planner emits nothing, but
after replacing the `-1` by `1` the right rule fires at `(0, 0)`: a `-1` in
the second-cell position of a pair is not treated like `1`. -/
theorem replaceNegOne_changes_output :
    assemble_level [[1, 0], [-1, 0]] 4 ≠
      assemble_level (replaceNegOne [[1, 0], [-1, 0]]) 4 := by decide

/-- C4 amended: `-1` is equivalent to `1` only in the first-cell position of
each rule's pair; a `-1` in the second-cell position blocks the wall.
Replacing every `-1` by `1` therefore never removes instructions but may add
some: the original instruction sequence is a sublist of the new one. -/
theorem assemble_level_sublist_replaceNegOne (plan : List (List Int))
    (panel : Nat) :
    List.Sublist (assemble_level plan panel)
      (assemble_level (replaceNegOne plan) panel) := by
  rw [assemble_level, assemble_level, getD0_replaceNegOne, List.length_map]
  rw [show (replaceNegOne plan).length = plan.length from List.length_map _ _]
  exact flatMap_sublist _ _ _ fun x _ =>
    flatMap_sublist _ _ _ fun y _ => cellInstrs_sublist_replace plan panel x y

lemma length_flatMap_range (n : Nat) (f : Nat → List Instr) :
    ((List.range n).flatMap f).length = ∑ i in Finset.range n, (f i).length := by
  induction n with
  | zero => simp
  | succ k ih =>
      rw [List.range_succ, List.flatMap_append, List.length_append,
        Finset.sum_range_succ, ih]
      simp

lemma count_flatMap_range (t : Instr) (n : Nat) (f : Nat → List Instr) :
    ((List.range n).flatMap f).count t = ∑ i in Finset.range n, (f i).count t := by
  induction n with
  | zero => simp
  | succ k ih =>
      rw [List.range_succ, List.flatMap_append, List.count_append,
        Finset.sum_range_succ, ih]
      simp

lemma length_assemble_level (plan : List (List Int)) (panel : Nat) :
    (assemble_level plan panel).length =
      ∑ x in Finset.range (plan.length - 1),
        ∑ y in Finset.range ((plan.getD 0 []).length - 1),
          (cellInstrs plan panel x y).length := by
  rw [assemble_level, length_flatMap_range]
  exact Finset.sum_congr rfl fun x _ => length_flatMap_range _ _

lemma length_cellInstrs (plan : List (List Int)) (panel x y : Nat) :
    (cellInstrs plan panel x y).length =
      (if x = 0 then hInd plan x y else 0) + vInd plan x y +
        vInd plan x (y + 1) + hInd plan (x + 1) y := by
  rw [cellInstrs, hInd, vInd, vInd, hInd]
  by_cases hx0 : x = 0
  · subst hx0
    simp only [beq_self_eq_true, Bool.true_and, if_pos rfl]
    repeat rw [List.length_append]
    split_ifs <;> simp
  · have hb : (x == 0) = false := by simp [hx0]
    simp only [hb, Bool.false_and, if_neg hx0]
    repeat rw [List.length_append]
    split_ifs <;> simp_all

lemma sum_ite_const {s : Finset Nat} (c : Prop) [Decidable c] (f : Nat → Nat) :
    (∑ y in s, if c then f y else 0) = if c then ∑ y in s, f y else 0 := by
  by_cases h : c <;> simp [h]

/-- C1 counterexample: on the all-ones 2×3 grid the planner emits 8
instructions, but only 7 distinct adjacent-cell pairs satisfy the
wall-presence predicate — the interior vertical pair in column 1 is
examined by both the right and the left rule, so the count is not the
number of distinct satisfying pairs. -/
theorem count_ne_distinct_pairs_on_2x3 :
    (assemble_level [[1, 1, 1], [1, 1, 1]] 0).length = 8 ∧
    specPairCount [[1, 1, 1], [1, 1, 1]] = 7 ∧
    (assemble_level [[1, 1, 1], [1, 1, 1]] 0).length ≠
      specPairCount [[1, 1, 1], [1, 1, 1]] := by decide

/-- C1 amended: the instruction count equals the number of satisfying
adjacent-cell pairs counted with multiplicity of examination: each
satisfying distinct pair contributes one instruction, and each satisfying
interior vertical pair (column in `1 .. H-2`) contributes one more, because
the right rule and the left rule each examine it once. -/
theorem length_eq_pairCount_add_doubled (plan : List (List Int)) (panel : Nat)
    (_hR : IsRect plan) (hW : 2 ≤ plan.length)
    (hH : 2 ≤ (plan.getD 0 []).length) :
    (assemble_level plan panel).length =
      specPairCount plan + doubledVertCount plan := by
  obtain ⟨k, hk⟩ := Nat.exists_eq_add_of_le hW
  obtain ⟨m, hm⟩ := Nat.exists_eq_add_of_le hH
  rw [length_assemble_level, specPairCount, specHorizCount, specVertCount,
    doubledVertCount]
  simp only [length_cellInstrs]
  have e1 : plan.length - 1 = k + 1 := by omega
  have e2 : (plan.getD 0 []).length - 1 = m + 1 := by omega
  have e3 : (plan.getD 0 []).length - 2 = m := by omega
  have e4 : plan.length = (k + 1) + 1 := by omega
  have e5 : (plan.getD 0 []).length = (m + 1) + 1 := by omega
  rw [e1, e2, e3, e4, e5]
  simp only [Finset.sum_add_distrib, sum_ite_const]
  rw [Finset.sum_ite_eq' (Finset.range (k + 1)) 0
    (fun x => ∑ y in Finset.range (m + 1), hInd plan x y),
    if_pos (Finset.mem_range.mpr (Nat.succ_pos k))]
  rw [Finset.sum_range_succ' (fun r => ∑ y in Finset.range (m + 1), hInd plan r y) (k + 1)]
  have hvert : ∀ x,
      (∑ y in Finset.range (m + 1), vInd plan x y) +
        (∑ y in Finset.range (m + 1), vInd plan x (y + 1)) =
      (∑ c in Finset.range ((m + 1) + 1), vInd plan x c) +
        ∑ j in Finset.range m, vInd plan x (j + 1) := by
    intro x
    rw [Finset.sum_range_succ' (fun c => vInd plan x c) (m + 1),
      Finset.sum_range_succ' (fun y => vInd plan x y) m]
    omega
  have hv2 :
      (∑ x in Finset.range (k + 1), ∑ y in Finset.range (m + 1), vInd plan x y) +
        ∑ x in Finset.range (k + 1), ∑ y in Finset.range (m + 1), vInd plan x (y + 1) =
      (∑ x in Finset.range (k + 1), ∑ c in Finset.range ((m + 1) + 1), vInd plan x c) +
        ∑ x in Finset.range (k + 1), ∑ j in Finset.range m, vInd plan x (j + 1) := by
    rw [← Finset.sum_add_distrib, ← Finset.sum_add_distrib]
    exact Finset.sum_congr rfl fun x _ => hvert x
  omega

/-- C1 amended witness: on the all-ones 2×3 grid, 8 = 7 + 1. -/
theorem length_eq_pairCount_add_doubled_on_2x3 :
    (assemble_level [[1, 1, 1], [1, 1, 1]] 0).length =
      specPairCount [[1, 1, 1], [1, 1, 1]] +
        doubledVertCount [[1, 1, 1], [1, 1, 1]] :=
  length_eq_pairCount_add_doubled [[1, 1, 1], [1, 1, 1]] 0
    (by decide) (by decide) (by decide)

lemma count_ite_singleton (t a : Instr) (b : Bool) :
    (if b = true then [a] else []).count t = if b = true ∧ a = t then 1 else 0 := by
  cases b
  · simp
  · rw [if_pos rfl, List.count_singleton']
    simp

lemma count_cellInstrs_target (plan : List (List Int)) (panel x c : Nat)
    (hc : 1 ≤ c) (hocc : occupied (cell plan x c) = true)
    (h1 : cell plan (x + 1) c = 1) (x' y' : Nat) :
    (cellInstrs plan panel x' y').count
        ⟨2 * (x : Int) + 1, 2 * (c : Int) - 1, 0, Rot.rNeg90, panel⟩ =
      (if x' = x ∧ y' = c then 1 else 0) +
        (if x' = x ∧ y' = c - 1 then 1 else 0) := by
  rw [cellInstrs]
  repeat rw [List.count_append]
  simp only [count_ite_singleton]
  have hTop : (⟨(x' : Int), 2 * (y' : Int), 0, Rot.r0, panel⟩ : Instr) ≠
      ⟨2 * (x : Int) + 1, 2 * (c : Int) - 1, 0, Rot.rNeg90, panel⟩ := by
    simp
  have hBot : (⟨2 * (x' : Int) + 2, 2 * (y' : Int), 0, Rot.r0, panel⟩ : Instr) ≠
      ⟨2 * (x : Int) + 1, 2 * (c : Int) - 1, 0, Rot.rNeg90, panel⟩ := by
    simp
  have hRmk : ((⟨2 * (x' : Int) + 1, 2 * (y' : Int) - 1, 0, Rot.rNeg90, panel⟩ : Instr) =
      ⟨2 * (x : Int) + 1, 2 * (c : Int) - 1, 0, Rot.rNeg90, panel⟩) ↔
      (x' = x ∧ y' = c) := by
    rw [Instr.mk.injEq]
    constructor
    · rintro ⟨e1, e2, -, -, -⟩
      exact ⟨by omega, by omega⟩
    · rintro ⟨rfl, rfl⟩
      simp
  have hLmk : ((⟨2 * (x' : Int) + 1, 2 * (y' : Int) + 1, 0, Rot.rNeg90, panel⟩ : Instr) =
      ⟨2 * (x : Int) + 1, 2 * (c : Int) - 1, 0, Rot.rNeg90, panel⟩) ↔
      (x' = x ∧ y' = c - 1) := by
    rw [Instr.mk.injEq]
    constructor
    · rintro ⟨e1, e2, -, -, -⟩
      exact ⟨by omega, by omega⟩
    · rintro ⟨rfl, rfl⟩
      refine ⟨rfl, by omega, rfl, rfl, rfl⟩
  simp only [hTop, hBot, hRmk, hLmk, and_false, false_and, if_false, zero_add,
    add_zero]
  by_cases hxc : x' = x ∧ y' = c
  · obtain ⟨rfl, rfl⟩ := hxc
    have hbR : (occupied (cell plan x' y') && (cell plan (x' + 1) y' == 1)) = true := by
      simp [hocc, h1]
    have hne : ¬(y' = y' - 1) := by omega
    simp [hbR, hne]
  · by_cases hxc' : x' = x ∧ y' = c - 1
    · obtain ⟨rfl, hy'⟩ := hxc'
      subst hy'
      have hc1 : c - 1 + 1 = c := by omega
      have hbL : (occupied (cell plan x' (c - 1 + 1)) &&
          (cell plan (x' + 1) (c - 1 + 1) == 1)) = true := by
        rw [hc1]
        simp [hocc, h1]
      have hne : ¬(c - 1 = c) := by omega
      simp [hbL, hne, hc1, hocc, h1]
    · simp [hxc, hxc']

lemma sum_sum_ite_pair (n m a b : Nat) (ha : a < n) (hb : b < m) :
    (∑ i in Finset.range n, ∑ j in Finset.range m,
      if i = a ∧ j = b then (1 : Nat) else 0) = 1 := by
  have hin : ∀ i, (∑ j in Finset.range m, if i = a ∧ j = b then (1 : Nat) else 0) =
      if i = a then 1 else 0 := by
    intro i
    by_cases hi : i = a
    · subst hi
      have he : ∀ j, (if i = i ∧ j = b then (1 : Nat) else 0) =
          if j = b then 1 else 0 := fun j => by simp
      rw [Finset.sum_congr rfl fun j _ => he j,
        Finset.sum_ite_eq' (Finset.range m) b fun _ => (1 : Nat)]
      simp [Finset.mem_range, hb]
    · have he : ∀ j, (if i = a ∧ j = b then (1 : Nat) else 0) = 0 :=
        fun j => by simp [hi]
      rw [Finset.sum_congr rfl fun j _ => he j]
      simp [hi]
  rw [Finset.sum_congr rfl fun i _ => hin i,
    Finset.sum_ite_eq' (Finset.range n) a fun _ => (1 : Nat)]
  simp [Finset.mem_range, ha]

/-- C6: every satisfying interior vertical edge yields two coincident
panels: if the cell pair `((x, c), (x+1, c))` with `1 ≤ c ≤ H-2` satisfies
the wall-presence predicate, the planner emits the instruction with
translation `(2x+1, 2c-1, 0)` and rotation -90° exactly twice — once from
the right rule at `(x, c)` and once from the left rule at `(x, c-1)`. -/
theorem interior_vertical_edge_two_panels (plan : List (List Int)) (panel x c : Nat)
    (_hR : IsRect plan) (hx : x < plan.length - 1) (hc1 : 1 ≤ c)
    (hc2 : c < (plan.getD 0 []).length - 1)
    (hocc : occupied (cell plan x c) = true) (h1 : cell plan (x + 1) c = 1) :
    (assemble_level plan panel).count
      ⟨2 * (x : Int) + 1, 2 * (c : Int) - 1, 0, Rot.rNeg90, panel⟩ = 2 := by
  rw [assemble_level, count_flatMap_range]
  rw [Finset.sum_congr rfl fun a _ => count_flatMap_range _ _ _]
  rw [Finset.sum_congr rfl fun a _ => Finset.sum_congr rfl fun b _ =>
    count_cellInstrs_target plan panel x c hc1 hocc h1 a b]
  simp only [Finset.sum_add_distrib]
  rw [sum_sum_ite_pair _ _ _ _ hx hc2, sum_sum_ite_pair _ _ _ _ hx (by omega)]

/-- C6 witness: on the all-ones 2×3 grid the edge `((0,1),(1,1))` yields the
instruction `(1, 1, 0)` rotated -90° exactly twice. -/
theorem interior_vertical_edge_two_panels_on_2x3 :
    (assemble_level [[1, 1, 1], [1, 1, 1]] 0).count
      ⟨1, 1, 0, Rot.rNeg90, 0⟩ = 2 := by
  have h := interior_vertical_edge_two_panels [[1, 1, 1], [1, 1, 1]] 0 0 1
    (by decide) (by decide) (by decide) (by decide) (by decide) (by decide)
  simpa using h

end BpyGenStructure
